import Mathlib

/- A shallow embedding of the greedy I/O scheduler in greedy-iosched.c.
   A Request carries a host identifier, a start sector and a length in
   sectors. The two intrusive kernel lists of greedy_data become Lean lists,
   sector_t arithmetic is Nat reduced mod 2 ^ 64, and the int-typed seek
   distances of greedy_dispatch are 32-bit two-complement values over Int. -/

namespace GreedyIosched

structure Request where
  id : Nat
  start_sector : Nat
  length_sectors : Nat
deriving DecidableEq

structure GreedyData where
  higher : List Request
  lower : List Request
  prev_pos : Nat
deriving DecidableEq

/-- Conversion of an unsigned 64-bit value to a C int: keep the low 32 bits
    and read them as a two-complement signed value. -/
def toInt32 (n : Nat) : Int :=
  if n % 2 ^ 32 < 2 ^ 31 then ((n % 2 ^ 32 : Nat) : Int)
  else ((n % 2 ^ 32 : Nat) : Int) - 2 ^ 32

/-- Subtraction of sector_t values in u64 arithmetic. -/
def u64sub (a b : Nat) : Nat :=
  (2 ^ 64 + a % 2 ^ 64 - b % 2 ^ 64) % 2 ^ 64

/-- rq_end_sector: blk_rq_pos plus blk_rq_sectors, in u64 arithmetic. -/
def rq_end_sector (r : Request) : Nat :=
  (r.start_sector + r.length_sectors) % 2 ^ 64

/-- The list_for_each scan followed by list_add: find the first entry
    satisfying cross and place rq immediately after it; the result is none
    when no entry satisfies cross (the scan reaches the head sentinel). -/
def scanInsert (cross : Request → Request → Bool) (rq : Request) :
    List Request → Option (List Request)
  | [] => none
  | x :: xs =>
    if cross x rq then some (x :: rq :: xs)
    else (scanInsert cross rq xs).map (fun l => x :: l)

/-- add_to_higher: break at the first entry whose start sector is strictly
    greater; list_add places rq right after that entry, and right after the
    head sentinel (hence at the front) when the scan falls off the end. -/
def add_to_higher (l : List Request) (rq : Request) : List Request :=
  (scanInsert (fun e r => e.start_sector > r.start_sector) rq l).getD (rq :: l)

/-- add_to_lower: break at the first entry whose start sector is strictly
    smaller; placement is the same list_add behavior as add_to_higher. -/
def add_to_lower (l : List Request) (rq : Request) : List Request :=
  (scanInsert (fun e r => e.start_sector < r.start_sector) rq l).getD (rq :: l)

/-- greedy_add_request: classify against prev_pos at insert time. -/
def greedy_add_request (gd : GreedyData) (rq : Request) : GreedyData :=
  if gd.prev_pos > rq.start_sector then
    { gd with lower := add_to_lower gd.lower rq }
  else
    { gd with higher := add_to_higher gd.higher rq }

/-- greedy_dispatch: pick a queue head, remove it (list_del_init) and advance
    prev_pos to its end sector. The force argument is taken and never read,
    exactly as in the source. -/
def greedy_dispatch (gd : GreedyData) (force : Bool) : Option Request × GreedyData :=
  match gd.higher, gd.lower with
  | th :: hrest, tl :: lrest =>
    let up_dist := toInt32 (u64sub th.start_sector gd.prev_pos)
    let down_dist := toInt32 (u64sub gd.prev_pos tl.start_sector)
    if up_dist > down_dist then
      (some tl, { higher := th :: hrest, lower := lrest, prev_pos := rq_end_sector tl })
    else
      (some th, { higher := hrest, lower := tl :: lrest, prev_pos := rq_end_sector th })
  | th :: hrest, [] =>
    (some th, { higher := hrest, lower := [], prev_pos := rq_end_sector th })
  | [], tl :: lrest =>
    (some tl, { higher := [], lower := lrest, prev_pos := rq_end_sector tl })
  | [], [] => (none, gd)

/-- greedy_merged_requests: list_del_init on next, removing it from whichever
    queue currently holds it. -/
def greedy_merged_requests (gd : GreedyData) (next : Request) : GreedyData :=
  { higher := gd.higher.erase next, lower := gd.lower.erase next,
    prev_pos := gd.prev_pos }

/-- Helper for formerIn: walk the list remembering the previous entry. -/
def formerGo : Request → List Request → Request → Option Request
  | _, [], _ => none
  | p, x :: xs, r => if x = r then some p else formerGo x xs r

/-- greedy_former_request within one queue: none when rq sits at the head
    (its prev pointer is the list head sentinel), else the preceding entry. -/
def formerIn : List Request → Request → Option Request
  | [], _ => none
  | x :: xs, r => if x = r then none else formerGo x xs r

/-- greedy_latter_request within one queue: the entry after rq, none when rq
    is the last entry (its next pointer is the list head sentinel). -/
def latterIn : List Request → Request → Option Request
  | [], _ => none
  | x :: xs, r => if x = r then xs.head? else latterIn xs r

def greedy_former_request (gd : GreedyData) (rq : Request) : Option Request :=
  if rq ∈ gd.higher then formerIn gd.higher rq else formerIn gd.lower rq

def greedy_latter_request (gd : GreedyData) (rq : Request) : Option Request :=
  if rq ∈ gd.higher then latterIn gd.higher rq else latterIn gd.lower rq

/-- greedy_init_queue: both lists empty, prev_pos zero. -/
def greedy_init_data : GreedyData :=
  { higher := [], lower := [], prev_pos := 0 }

inductive ExitResult where
  | ok
  | invariantViolation
deriving DecidableEq

/-- greedy_exit_queue: the two BUG_ON emptiness checks rendered as a checked
    result, per the teardown contract of the spec. -/
def greedy_exit_queue (gd : GreedyData) : ExitResult :=
  if gd.higher.isEmpty then
    if gd.lower.isEmpty then ExitResult.ok else ExitResult.invariantViolation
  else ExitResult.invariantViolation

/-- Run greedy_dispatch up to n times, collecting the dispatched requests
    in order and stopping at the first empty result. -/
def dispatchAll : Nat → GreedyData → List Request × GreedyData
  | 0, gd => ([], gd)
  | n + 1, gd =>
    match greedy_dispatch gd false with
    | (some r, gd2) =>
      let rest := dispatchAll n gd2
      (r :: rest.1, rest.2)
    | (none, gd2) => ([], gd2)

/-- Non-decreasing by start sector, front to back. -/
def sortedAsc : List Request → Bool
  | [] => true
  | [_] => true
  | a :: b :: t => (decide (a.start_sector ≤ b.start_sector)) && sortedAsc (b :: t)

/-- Absolute seek distance between two sector positions. -/
def absDist (a b : Nat) : Nat := max a b - min a b

/-- The inserted request is a member of the resulting list, wherever the
    scan placed it. -/
theorem mem_scanInsert_getD (cross : Request → Request → Bool) (rq : Request) :
    ∀ l : List Request, rq ∈ (scanInsert cross rq l).getD (rq :: l) := by
  intro l
  induction l with
  | nil => simp [scanInsert]
  | cons x xs ih =>
    by_cases h : cross x rq
    · simp [scanInsert, h]
    · simp only [scanInsert, h, Bool.false_eq_true, if_false]
      cases hsc : scanInsert cross rq xs with
      | none => simp [hsc]
      | some res =>
        rw [hsc] at ih
        simp only [Option.getD_some] at ih
        simp [hsc, ih]

theorem mem_add_to_higher (l : List Request) (rq : Request) :
    rq ∈ add_to_higher l rq :=
  mem_scanInsert_getD _ rq l

theorem mem_add_to_lower (l : List Request) (rq : Request) :
    rq ∈ add_to_lower l rq :=
  mem_scanInsert_getD _ rq l

/-- Claim C1: after any sequence of Insert calls the Higher queue is
    non-decreasing by start sector, the Lower queue non-increasing, and equal
    keys keep arrival order. This fails on the code: list_add places the new
    request after the scan position (or at the front when nothing crosses),
    so inserting start 10 then start 20 into a fresh scheduler leaves Higher
    equal to the unsorted list with 20 in front of 10, and inserting two
    equal-key requests reverses their arrival order. -/
theorem C1_insertion_unsorted :
    ((greedy_add_request (greedy_add_request greedy_init_data ⟨0, 10, 1⟩) ⟨1, 20, 1⟩).higher
      = [⟨1, 20, 1⟩, ⟨0, 10, 1⟩])
    ∧ sortedAsc (greedy_add_request (greedy_add_request greedy_init_data
        ⟨0, 10, 1⟩) ⟨1, 20, 1⟩).higher = false
    ∧ ((greedy_add_request (greedy_add_request greedy_init_data ⟨0, 10, 1⟩) ⟨1, 10, 1⟩).higher
      = [⟨1, 10, 1⟩, ⟨0, 10, 1⟩]) := by decide

/-- Claim C2, counterexample: a reachable state (insert start 10 length 100,
    insert start 50 length 1, dispatch once, insert start 30 length 1) has
    higher head at sector 10, lower head at sector 30 and prev_pos 51; the
    next dispatch selects the higher head although its absolute seek distance
    41 exceeds the lower head distance 21, so the selected head does not
    minimize the absolute seek distance. -/
theorem C2_dispatch_not_nearest :
    (greedy_add_request (greedy_dispatch (greedy_add_request (greedy_add_request
        greedy_init_data ⟨0, 10, 100⟩) ⟨1, 50, 1⟩) false).2 ⟨2, 30, 1⟩
      = (⟨[⟨0, 10, 100⟩], [⟨2, 30, 1⟩], 51⟩ : GreedyData))
    ∧ (greedy_dispatch (⟨[⟨0, 10, 100⟩], [⟨2, 30, 1⟩], 51⟩ : GreedyData) false).1
      = some ⟨0, 10, 100⟩
    ∧ absDist 10 51 > absDist 30 51 := by decide

/-- Claim C3: Scenario A fails on the code. Inserting sectors 100, 50, 500,
    10 into a fresh scheduler classifies all four into Higher, but the
    list_add placement leaves the queue as 500, 10, 100, 50 rather than the
    claimed sorted 10, 50, 100, 500; four dispatches return 500, 10, 100, 50
    and prev_pos ends at 51 rather than 501. -/
theorem C3_scenarioA_actual :
    ((greedy_add_request (greedy_add_request (greedy_add_request (greedy_add_request
        greedy_init_data ⟨0, 100, 1⟩) ⟨1, 50, 1⟩) ⟨2, 500, 1⟩) ⟨3, 10, 1⟩).higher
      = [⟨2, 500, 1⟩, ⟨3, 10, 1⟩, ⟨0, 100, 1⟩, ⟨1, 50, 1⟩])
    ∧ ((greedy_add_request (greedy_add_request (greedy_add_request (greedy_add_request
        greedy_init_data ⟨0, 100, 1⟩) ⟨1, 50, 1⟩) ⟨2, 500, 1⟩) ⟨3, 10, 1⟩).lower = [])
    ∧ ((dispatchAll 4 (greedy_add_request (greedy_add_request (greedy_add_request
        (greedy_add_request greedy_init_data ⟨0, 100, 1⟩) ⟨1, 50, 1⟩) ⟨2, 500, 1⟩)
        ⟨3, 10, 1⟩)).1.map Request.start_sector = [500, 10, 100, 50])
    ∧ ((dispatchAll 4 (greedy_add_request (greedy_add_request (greedy_add_request
        (greedy_add_request greedy_init_data ⟨0, 100, 1⟩) ⟨1, 50, 1⟩) ⟨2, 500, 1⟩)
        ⟨3, 10, 1⟩)).2.prev_pos = 51) := by decide

/-- Claim C4: the target queue is decided once at insert time by comparing
    the start sector with the current prev_pos (Lower when strictly smaller,
    Higher otherwise), and no later operation moves a request between queues:
    dispatch and merge removal only ever shrink each queue in place. -/
theorem C4_insert_classification (gd : GreedyData) (rq : Request) (f : Bool) :
    (if rq.start_sector < gd.prev_pos
      then rq ∈ (greedy_add_request gd rq).lower ∧
           (greedy_add_request gd rq).higher = gd.higher
      else rq ∈ (greedy_add_request gd rq).higher ∧
           (greedy_add_request gd rq).lower = gd.lower)
    ∧ ((greedy_dispatch gd f).2.higher.Sublist gd.higher)
    ∧ ((greedy_dispatch gd f).2.lower.Sublist gd.lower)
    ∧ ((greedy_merged_requests gd rq).higher.Sublist gd.higher)
    ∧ ((greedy_merged_requests gd rq).lower.Sublist gd.lower) := by
  refine ⟨?_, ?_, ?_, List.erase_sublist _ _, List.erase_sublist _ _⟩
  · by_cases h : rq.start_sector < gd.prev_pos
    · rw [if_pos h]
      unfold greedy_add_request
      rw [if_pos h]
      exact ⟨mem_add_to_lower gd.lower rq, rfl⟩
    · rw [if_neg h]
      unfold greedy_add_request
      rw [if_neg h]
      exact ⟨mem_add_to_higher gd.higher rq, rfl⟩
  · obtain ⟨hq, lq, pp⟩ := gd
    cases hq with
    | nil =>
      cases lq with
      | nil => exact List.Sublist.refl _
      | cons tl lrest => simp [greedy_dispatch]
    | cons th hrest =>
      cases lq with
      | nil => simp [greedy_dispatch]
      | cons tl lrest =>
        simp only [greedy_dispatch]
        split
        · exact List.Sublist.refl _
        · exact List.Sublist.cons _ (List.Sublist.refl _)
  · obtain ⟨hq, lq, pp⟩ := gd
    cases hq with
    | nil =>
      cases lq with
      | nil => exact List.Sublist.refl _
      | cons tl lrest => simp [greedy_dispatch]
    | cons th hrest =>
      cases lq with
      | nil => exact List.Sublist.refl _
      | cons tl lrest =>
        simp only [greedy_dispatch]
        split
        · exact List.Sublist.cons _ (List.Sublist.refl _)
        · exact List.Sublist.refl _

/-- Claim C5: prev_pos is changed only by dispatch. Insert and merge removal
    keep it unchanged; a dispatch that returns a request sets it to the end
    sector of that request (start plus length in u64 arithmetic, which is the
    plain sum whenever it fits in 64 bits), and a dispatch that returns none
    keeps it unchanged. -/
theorem C5_prev_pos_updates (gd : GreedyData) (rq : Request) (f : Bool) :
    ((greedy_add_request gd rq).prev_pos = gd.prev_pos)
    ∧ ((greedy_merged_requests gd rq).prev_pos = gd.prev_pos)
    ∧ ((greedy_dispatch gd f).2.prev_pos
        = ((greedy_dispatch gd f).1).elim gd.prev_pos rq_end_sector)
    ∧ (rq.start_sector + rq.length_sectors < 2 ^ 64 →
        rq_end_sector rq = rq.start_sector + rq.length_sectors) := by
  refine ⟨?_, rfl, ?_, ?_⟩
  · unfold greedy_add_request
    split <;> rfl
  · obtain ⟨hq, lq, pp⟩ := gd
    cases hq with
    | nil =>
      cases lq with
      | nil => rfl
      | cons tl lrest => simp [greedy_dispatch]
    | cons th hrest =>
      cases lq with
      | nil => simp [greedy_dispatch]
      | cons tl lrest =>
        simp only [greedy_dispatch]
        split <;> simp
  · intro h
    unfold rq_end_sector
    omega

/-- Witness for C5 at a concrete scheduler state and request. -/
theorem C5_prev_pos_updates_witness :
    ((greedy_add_request (⟨[⟨0, 10, 2⟩], [], 5⟩ : GreedyData) ⟨1, 3, 4⟩).prev_pos = 5)
    ∧ ((greedy_merged_requests (⟨[⟨0, 10, 2⟩], [], 5⟩ : GreedyData) ⟨1, 3, 4⟩).prev_pos = 5)
    ∧ ((greedy_dispatch (⟨[⟨0, 10, 2⟩], [], 5⟩ : GreedyData) false).2.prev_pos
        = ((greedy_dispatch (⟨[⟨0, 10, 2⟩], [], 5⟩ : GreedyData) false).1).elim 5 rq_end_sector)
    ∧ rq_end_sector ⟨1, 3, 4⟩ = 3 + 4 := by
  have h := C5_prev_pos_updates (⟨[⟨0, 10, 2⟩], [], 5⟩ : GreedyData) ⟨1, 3, 4⟩ false
  exact ⟨h.1, h.2.1, h.2.2.1, h.2.2.2 (by decide)⟩

/-- Claim C6: Scenario B. With prev_pos 50, inserting sector 10 classifies it
    into Lower and sector 80 into Higher; the first dispatch picks 80 (up
    distance 30 is not greater than down distance 40) and the second picks
    10, so the dispatch order is 80 then 10. -/
theorem C6_scenarioB :
    ((greedy_add_request (greedy_add_request (⟨[], [], 50⟩ : GreedyData)
        ⟨0, 10, 1⟩) ⟨1, 80, 1⟩).lower = [⟨0, 10, 1⟩])
    ∧ ((greedy_add_request (greedy_add_request (⟨[], [], 50⟩ : GreedyData)
        ⟨0, 10, 1⟩) ⟨1, 80, 1⟩).higher = [⟨1, 80, 1⟩])
    ∧ ((dispatchAll 2 (greedy_add_request (greedy_add_request (⟨[], [], 50⟩ : GreedyData)
        ⟨0, 10, 1⟩) ⟨1, 80, 1⟩)).1 = [⟨1, 80, 1⟩, ⟨0, 10, 1⟩]) := by decide

/-- Claim C7: Scenario C. Insert two length-1 requests A then B, both at
    sector 10, into a fresh scheduler, then merge-remove B; the next dispatch
    returns A and the dispatch after that returns none on the empty state. -/
theorem C7_scenarioC :
    ((greedy_dispatch (greedy_merged_requests (greedy_add_request (greedy_add_request
        greedy_init_data ⟨0, 10, 1⟩) ⟨1, 10, 1⟩) ⟨1, 10, 1⟩) false).1 = some ⟨0, 10, 1⟩)
    ∧ ((greedy_dispatch (greedy_dispatch (greedy_merged_requests (greedy_add_request
        (greedy_add_request greedy_init_data ⟨0, 10, 1⟩) ⟨1, 10, 1⟩) ⟨1, 10, 1⟩)
        false).2 false).1 = none) := by decide

/-- Claim C8: teardown succeeds exactly when both queues are empty, and
    signals the invariant violation for every non-empty combination. -/
theorem C8_exit_queue (gd : GreedyData) :
    (greedy_exit_queue gd = ExitResult.ok ↔ gd.higher = [] ∧ gd.lower = [])
    ∧ (greedy_exit_queue gd = ExitResult.invariantViolation
        ↔ ¬(gd.higher = [] ∧ gd.lower = [])) := by
  obtain ⟨hq, lq, pp⟩ := gd
  cases hq <;> cases lq <;> simp [greedy_exit_queue]

/-- Claim C9: the force flag is never read, so dispatch with force true and
    force false return the same request and the same successor state on every
    scheduler state, the empty case included. -/
theorem C9_force_noop (gd : GreedyData) (f1 f2 : Bool) :
    greedy_dispatch gd f1 = greedy_dispatch gd f2 := rfl

theorem toInt32_u64sub_eq (a b : Nat) (hba : b ≤ a) (ha : a < 2 ^ 64)
    (hd : a - b < 2 ^ 31) :
    toInt32 (u64sub a b) = ((a - b : Nat) : Int) := by
  have hb : b < 2 ^ 64 := lt_of_le_of_lt hba ha
  unfold toInt32 u64sub
  rw [Nat.mod_eq_of_lt ha, Nat.mod_eq_of_lt hb]
  have h3 : (2 ^ 64 + a - b) % 2 ^ 64 = a - b := by omega
  rw [h3]
  have h4 : (a - b) % 2 ^ 32 = a - b := by omega
  rw [h4, if_pos hd]

/-- Claim C2, amended: when both queues are non-empty and their heads
    straddle prev_pos (lower head at or below it, higher head at or above it,
    each distance below 2 ^ 31 so the C int truncation is exact), dispatch
    returns the head minimizing the absolute seek distance, with the equal
    distance case resolved toward the Higher queue. -/
theorem C2_amended_minimization (gd : GreedyData) (f : Bool) (th tl : Request)
    (hrest lrest : List Request)
    (hh : gd.higher = th :: hrest) (hl : gd.lower = tl :: lrest)
    (hth : th.start_sector < 2 ^ 64) (hpp : gd.prev_pos < 2 ^ 64)
    (h1 : tl.start_sector ≤ gd.prev_pos) (h2 : gd.prev_pos ≤ th.start_sector)
    (h3 : th.start_sector - gd.prev_pos < 2 ^ 31)
    (h4 : gd.prev_pos - tl.start_sector < 2 ^ 31) :
    (greedy_dispatch gd f).1
      = some (if absDist tl.start_sector gd.prev_pos < absDist th.start_sector gd.prev_pos
              then tl else th) := by
  obtain ⟨hq, lq, pp⟩ := gd
  simp only at hh hl h1 h2 h3 h4 hpp ⊢
  subst hh
  subst hl
  have e1 : toInt32 (u64sub th.start_sector pp) = ((th.start_sector - pp : Nat) : Int) :=
    toInt32_u64sub_eq _ _ h2 hth h3
  have e2 : toInt32 (u64sub pp tl.start_sector) = ((pp - tl.start_sector : Nat) : Int) :=
    toInt32_u64sub_eq _ _ h1 hpp h4
  have hiff : (toInt32 (u64sub pp tl.start_sector) < toInt32 (u64sub th.start_sector pp))
      ↔ (absDist tl.start_sector pp < absDist th.start_sector pp) := by
    rw [e1, e2]
    unfold absDist
    omega
  simp only [greedy_dispatch]
  by_cases hc : absDist tl.start_sector pp < absDist th.start_sector pp
  · rw [if_pos (hiff.mpr hc), if_pos hc]
  · rw [if_neg (fun hgt => hc (hiff.mp hgt)), if_neg hc]

/-- Witness for the amended C2 at a concrete tie: heads at sectors 30 and 10
    with prev_pos 20 have equal distance 10, and the Higher head is taken. -/
theorem C2_amended_minimization_witness :
    (greedy_dispatch (⟨[⟨0, 30, 1⟩], [⟨1, 10, 1⟩], 20⟩ : GreedyData) false).1
      = some (if absDist 10 20 < absDist 30 20 then (⟨1, 10, 1⟩ : Request) else ⟨0, 30, 1⟩) :=
  C2_amended_minimization (⟨[⟨0, 30, 1⟩], [⟨1, 10, 1⟩], 20⟩ : GreedyData) false
    ⟨0, 30, 1⟩ ⟨1, 10, 1⟩ [] [] rfl rfl (by decide) (by decide) (by decide)
    (by decide) (by decide) (by decide)

theorem formerGo_middle (a b : Request) (ys : List Request) :
    ∀ (xs : List Request) (p : Request), b ∉ xs → a ≠ b →
      formerGo p (xs ++ a :: b :: ys) b = some a := by
  intro xs
  induction xs with
  | nil =>
    intro p _ hab
    simp [formerGo, hab]
  | cons x xs2 ih =>
    intro p hmem hab
    have hx : ¬(x = b) := fun hxb => hmem (by simp [hxb])
    have hx2 : b ∉ xs2 := fun hb => hmem (by simp [hb])
    simp only [List.cons_append, formerGo, if_neg hx]
    exact ih x hx2 hab

theorem formerIn_middle (xs : List Request) (a b : Request) (ys : List Request)
    (hnd : (xs ++ a :: b :: ys).Nodup) :
    formerIn (xs ++ a :: b :: ys) b = some a := by
  cases xs with
  | nil =>
    have hab : a ≠ b := by
      have h := (List.nodup_cons.mp hnd).1
      intro he
      exact h (by simp [he])
    simp [formerIn, hab, formerGo]
  | cons x xs2 =>
    rw [List.cons_append] at hnd
    have hxmem := (List.nodup_cons.mp hnd).1
    have hx : ¬(x = b) := by
      intro he
      exact hxmem (by simp [he])
    have hnd2 : (xs2 ++ a :: b :: ys).Nodup := (List.nodup_cons.mp hnd).2
    obtain ⟨hnx, hnb, hdisj⟩ := List.nodup_append.mp hnd2
    have hb2 : b ∉ xs2 := fun hb => hdisj hb (by simp)
    have hab : a ≠ b := by
      have h := (List.nodup_cons.mp hnb).1
      intro he
      exact h (by simp [he])
    simp only [List.cons_append, formerIn, if_neg hx]
    exact formerGo_middle a b ys xs2 x hb2 hab

theorem latterIn_middle (a b : Request) (ys : List Request) :
    ∀ xs : List Request, a ∉ xs → latterIn (xs ++ a :: b :: ys) a = some b := by
  intro xs
  induction xs with
  | nil =>
    intro _
    simp [latterIn]
  | cons x xs2 ih =>
    intro hmem
    have hx : ¬(x = a) := fun he => hmem (by simp [he])
    have h2 : a ∉ xs2 := fun hb => hmem (by simp [hb])
    simp only [List.cons_append, latterIn, if_neg hx]
    exact ih h2

theorem latterIn_last (a : Request) :
    ∀ xs : List Request, a ∉ xs → latterIn (xs ++ [a]) a = none := by
  intro xs
  induction xs with
  | nil =>
    intro _
    simp [latterIn]
  | cons x xs2 ih =>
    intro hmem
    have hx : ¬(x = a) := fun he => hmem (by simp [he])
    have h2 : a ∉ xs2 := fun hb => hmem (by simp [hb])
    simp only [List.cons_append, latterIn, if_neg hx]
    exact ih h2

/-- Claim C10: for a request held in a queue of a state whose two queues hold
    pairwise distinct requests, the former query returns the entry just
    before it in its queue and none at the head, and the latter query returns
    the entry just after it and none at the tail; both are read-only
    functions of the state, so neither queue nor prev_pos can change. -/
theorem C10_former_latter (gd : GreedyData)
    (hnd : (gd.higher ++ gd.lower).Nodup) :
    (∀ xs a b ys, gd.higher = xs ++ a :: b :: ys →
       greedy_former_request gd b = some a ∧ greedy_latter_request gd a = some b)
    ∧ (∀ b ys, gd.higher = b :: ys → greedy_former_request gd b = none)
    ∧ (∀ xs a, gd.higher = xs ++ [a] → greedy_latter_request gd a = none)
    ∧ (∀ xs a b ys, gd.lower = xs ++ a :: b :: ys →
       greedy_former_request gd b = some a ∧ greedy_latter_request gd a = some b)
    ∧ (∀ b ys, gd.lower = b :: ys → greedy_former_request gd b = none)
    ∧ (∀ xs a, gd.lower = xs ++ [a] → greedy_latter_request gd a = none) := by
  obtain ⟨hndH, hndL, hdisj⟩ := List.nodup_append.mp hnd
  refine ⟨?_, ?_, ?_, ?_, ?_, ?_⟩
  · intro xs a b ys heq
    have hbH : b ∈ gd.higher := by rw [heq]; simp
    have haH : a ∈ gd.higher := by rw [heq]; simp
    have hndH2 : (xs ++ a :: b :: ys).Nodup := heq ▸ hndH
    obtain ⟨hx1, hx2, hdj⟩ := List.nodup_append.mp hndH2
    have haxs : a ∉ xs := fun hmem => hdj hmem (by simp)
    constructor
    · rw [greedy_former_request, if_pos hbH, heq]
      exact formerIn_middle xs a b ys hndH2
    · rw [greedy_latter_request, if_pos haH, heq]
      exact latterIn_middle a b ys xs haxs
  · intro b ys heq
    have hbH : b ∈ gd.higher := by rw [heq]; simp
    rw [greedy_former_request, if_pos hbH, heq]
    simp [formerIn]
  · intro xs a heq
    have haH : a ∈ gd.higher := by rw [heq]; simp
    have hndH2 : (xs ++ [a]).Nodup := heq ▸ hndH
    obtain ⟨hx1, hx2, hdj⟩ := List.nodup_append.mp hndH2
    have haxs : a ∉ xs := fun hmem => hdj hmem (by simp)
    rw [greedy_latter_request, if_pos haH, heq]
    exact latterIn_last a xs haxs
  · intro xs a b ys heq
    have hbL : b ∈ gd.lower := by rw [heq]; simp
    have haL : a ∈ gd.lower := by rw [heq]; simp
    have hbH : b ∉ gd.higher := fun hmem => hdisj hmem hbL
    have haH : a ∉ gd.higher := fun hmem => hdisj hmem haL
    have hndL2 : (xs ++ a :: b :: ys).Nodup := heq ▸ hndL
    obtain ⟨hx1, hx2, hdj⟩ := List.nodup_append.mp hndL2
    have haxs : a ∉ xs := fun hmem => hdj hmem (by simp)
    constructor
    · rw [greedy_former_request, if_neg hbH, heq]
      exact formerIn_middle xs a b ys hndL2
    · rw [greedy_latter_request, if_neg haH, heq]
      exact latterIn_middle a b ys xs haxs
  · intro b ys heq
    have hbL : b ∈ gd.lower := by rw [heq]; simp
    have hbH : b ∉ gd.higher := fun hmem => hdisj hmem hbL
    rw [greedy_former_request, if_neg hbH, heq]
    simp [formerIn]
  · intro xs a heq
    have haL : a ∈ gd.lower := by rw [heq]; simp
    have haH : a ∉ gd.higher := fun hmem => hdisj hmem haL
    have hndL2 : (xs ++ [a]).Nodup := heq ▸ hndL
    obtain ⟨hx1, hx2, hdj⟩ := List.nodup_append.mp hndL2
    have haxs : a ∉ xs := fun hmem => hdj hmem (by simp)
    rw [greedy_latter_request, if_neg haH, heq]
    exact latterIn_last a xs haxs

/-- Witness for C10 on a state with two requests in Higher and one in Lower:
    neighbor lookups inside Higher and the boundary cases on both queues. -/
theorem C10_former_latter_witness :
    (greedy_former_request (⟨[⟨0, 1, 1⟩, ⟨1, 2, 1⟩], [⟨2, 9, 1⟩], 0⟩ : GreedyData)
        ⟨1, 2, 1⟩ = some ⟨0, 1, 1⟩)
    ∧ (greedy_latter_request (⟨[⟨0, 1, 1⟩, ⟨1, 2, 1⟩], [⟨2, 9, 1⟩], 0⟩ : GreedyData)
        ⟨0, 1, 1⟩ = some ⟨1, 2, 1⟩)
    ∧ (greedy_former_request (⟨[⟨0, 1, 1⟩, ⟨1, 2, 1⟩], [⟨2, 9, 1⟩], 0⟩ : GreedyData)
        ⟨0, 1, 1⟩ = none)
    ∧ (greedy_latter_request (⟨[⟨0, 1, 1⟩, ⟨1, 2, 1⟩], [⟨2, 9, 1⟩], 0⟩ : GreedyData)
        ⟨2, 9, 1⟩ = none) := by
  refine ⟨?_, ?_, ?_, ?_⟩
  · exact ((C10_former_latter _ (by decide)).1 [] ⟨0, 1, 1⟩ ⟨1, 2, 1⟩ [] rfl).1
  · exact ((C10_former_latter _ (by decide)).1 [] ⟨0, 1, 1⟩ ⟨1, 2, 1⟩ [] rfl).2
  · exact (C10_former_latter _ (by decide)).2.1 ⟨0, 1, 1⟩ [⟨1, 2, 1⟩] rfl
  · exact (C10_former_latter _ (by decide)).2.2.2.2.2 [] ⟨2, 9, 1⟩ rfl

end GreedyIosched
